import Mathlib

/-!
Shallow embedding of the contact-extraction heuristics of
`src/document_converter_fixed.py`: the functions `is_person_name`,
`is_contact_table` and `extract_contact_table`, together with a
faithful model of Python `re.findall` for the email and phone
patterns used there (leftmost scan, greedy quantifiers with
backtracking, word boundaries).  All strings are ASCII; the Python
`str` operations (`lower`, `strip`, `split`, substring `in`,
`" ".join`) are modelled on `List Char`.
-/

/-- ASCII code of a character (`ord`). -/
def chN (c : Char) : Nat := c.toNat

/-- Python whitespace (`\s`, `str.strip`, `str.split`): space, TAB, LF, VT, FF, CR. -/
def isWs (c : Char) : Bool :=
  chN c == 32 || chN c == 9 || chN c == 10 || chN c == 11 || chN c == 12 || chN c == 13

/-- ASCII `A`-`Z`. -/
def isUpperAscii (c : Char) : Bool := 65 ≤ chN c && chN c ≤ 90

/-- ASCII `a`-`z`. -/
def isLowerAscii (c : Char) : Bool := 97 ≤ chN c && chN c ≤ 122

/-- ASCII letter (`[A-Za-z]`). -/
def isAlphaAscii (c : Char) : Bool := isUpperAscii c || isLowerAscii c

/-- ASCII digit (`\d` restricted to ASCII input). -/
def isDigitAscii (c : Char) : Bool := 48 ≤ chN c && chN c ≤ 57

/-- Python `str.lower` on one ASCII character. -/
def lowerChar (c : Char) : Char :=
  if 65 ≤ chN c ∧ chN c ≤ 90 then Char.ofNat (chN c + 32) else c

/-- Strip leading and trailing whitespace from a character list (Python `str.strip`). -/
def stripChars (cs : List Char) : List Char :=
  ((cs.dropWhile isWs).reverse.dropWhile isWs).reverse

/-- Python `str.strip`. -/
def pyStrip (s : String) : String := ⟨stripChars s.data⟩

/-- Python `str.lower`. -/
def pyLower (s : String) : String := ⟨s.data.map lowerChar⟩

/-- Does `hay` start with `needle`? -/
def chStarts : List Char → List Char → Bool
  | [], _ => true
  | _ :: _, [] => false
  | a :: as, b :: bs => a == b && chStarts as bs

/-- Substring containment on character lists (Python `needle in hay`). -/
def charsContain (needle : List Char) : List Char → Bool
  | [] => needle.isEmpty
  | c :: t => chStarts needle (c :: t) || charsContain needle t

/-- Python substring test `needle in hay` on strings. -/
def pyIn (needle hay : String) : Bool := charsContain needle.data hay.data

/-- Python `" ".join`. -/
def joinSpace : List String → String
  | [] => ""
  | [s] => s
  | s :: rest => s ++ " " ++ joinSpace rest

/-- Worker for `splitWs`; `acc` is the current word, reversed. -/
def splitWsAux : List Char → List Char → List (List Char)
  | acc, [] => if acc.isEmpty then [] else [acc.reverse]
  | acc, c :: rest =>
      if isWs c then
        if acc.isEmpty then splitWsAux [] rest
        else acc.reverse :: splitWsAux [] rest
      else splitWsAux (c :: acc) rest

/-- Python `str.split()`: split on whitespace runs, discarding empty parts. -/
def splitWs (cs : List Char) : List (List Char) := splitWsAux [] cs

/-! ## A model of Python `re` for the patterns used in the source

Each pattern in the source is a plain sequence of character classes with
counted greedy quantifiers and word-boundary assertions, so a pattern is
modelled as a `List RElem` and matched with greedy backtracking exactly as
Python's engine does. -/

/-- One regex element: a character class `p` repeated greedily between `mn`
and `mx` times (`mx = none` means unbounded, i.e. `+` or `{n,}`), or a word
boundary `\b`. -/
inductive RElem where
  | cls (p : Char → Bool) (mn : Nat) (mx : Option Nat)
  | bnd

/-- Length of the maximal leading run of characters satisfying `p`. -/
def countRun (p : Char → Bool) : List Char → Nat
  | [] => 0
  | c :: rest => if p c then countRun p rest + 1 else 0

/-- The character preceding the position reached after consuming `k`
characters of `s`, given the character `prev` preceding `s`. -/
def prevAfter (prev : Option Char) (s : List Char) (k : Nat) : Option Char :=
  if k = 0 then prev else (s.take k).getLast?

/-- Regex word character (`\w`): letter, digit or underscore. -/
def wordChar (c : Char) : Bool := isAlphaAscii c || isDigitAscii c || chN c == 95

/-- Word boundary `\b` between a preceding and a following character
(either may be absent at the ends of the string). -/
def atBound (prev : Option Char) (next : Option Char) : Bool :=
  (match prev with | some c => wordChar c | none => false)
    != (match next with | some c => wordChar c | none => false)

/-- Match a pattern at the start of `s` (`prev` is the character just before
`s`, for `\b`).  Returns the number of characters consumed by the
leftmost-greedy match, trying greedy counts first and backtracking, exactly
as Python's engine does.  `none` means no match anchored here. -/
def reMatch : List RElem → Option Char → List Char → Option Nat
  | [], _, _ => some 0
  | RElem.bnd :: es, prev, s =>
      if atBound prev s.head? then reMatch es prev s else none
  | RElem.cls p mn mx :: es, prev, s =>
      let kmax := match mx with
        | some m => min m (countRun p s)
        | none => countRun p s
      if kmax < mn then none
      else
        (List.range (kmax + 1 - mn)).foldl
          (fun acc j =>
            acc <|> (reMatch es (prevAfter prev s (kmax - j)) (s.drop (kmax - j))).map
              (fun m => (kmax - j) + m))
          none

/-- Python `re.findall` scan: try a match at each position left to right;
on success emit the matched text and resume after it.  The recursion is on
`fuel`, which strictly exceeds the number of positions still to scan
(`reFindAll` starts it at `s.length + 1`, and every step consumes at least
one character of `s` or ends the scan), so the `0` case is never reached. -/
def reFindAllGo (pat : List RElem) : Nat → Option Char → (s : List Char) → List (List Char)
  | 0, _, _ => []
  | _ + 1, prev, [] =>
      match reMatch pat prev [] with
      | some _ => [[]]
      | none => []
  | fuel + 1, prev, c :: rest =>
      match reMatch pat prev (c :: rest) with
      | some 0 => [] :: reFindAllGo pat fuel (some c) rest
      | some (l + 1) =>
          ((c :: rest).take (l + 1)) ::
            reFindAllGo pat fuel (prevAfter prev (c :: rest) (l + 1)) ((c :: rest).drop (l + 1))
      | none => reFindAllGo pat fuel (some c) rest

/-- Python `re.findall pattern s` (none of the source's patterns has groups,
so each hit is the full match). -/
def reFindAll (pat : List RElem) (s : String) : List String :=
  (reFindAllGo pat (s.data.length + 1) none s.data).map (fun cs => ⟨cs⟩)

/-- Character class `[-.\s]` of the source's phone patterns. -/
def sepChar (c : Char) : Bool := chN c == 45 || chN c == 46 || isWs c

/-- Class `[A-Za-z0-9._%+-]` (email local part). -/
def localChar (c : Char) : Bool :=
  isAlphaAscii c || isDigitAscii c || chN c == 46 || chN c == 95 ||
    chN c == 37 || chN c == 43 || chN c == 45

/-- Class `[A-Za-z0-9.-]` (email domain). -/
def domChar (c : Char) : Bool :=
  isAlphaAscii c || isDigitAscii c || chN c == 46 || chN c == 45

/-- Class `[A-Z|a-z]` (email TLD; the source's class literally includes `|`). -/
def tldChar (c : Char) : Bool := isUpperAscii c || chN c == 124 || isLowerAscii c

/-- Single-character literal. -/
def chEq (a : Char) : Char → Bool := fun c => c == a

/-- Source pattern `\b\d{3}[-.\s]?\d{3}[-.\s]?\d{4}\b`. -/
def phonePat1 : List RElem :=
  [RElem.bnd, RElem.cls isDigitAscii 3 (some 3), RElem.cls sepChar 0 (some 1),
   RElem.cls isDigitAscii 3 (some 3), RElem.cls sepChar 0 (some 1),
   RElem.cls isDigitAscii 4 (some 4), RElem.bnd]

/-- Source pattern `\(\d{3}\)\s?\d{3}[-.\s]?\d{4}`. -/
def phonePat2 : List RElem :=
  [RElem.cls (chEq '(') 1 (some 1), RElem.cls isDigitAscii 3 (some 3),
   RElem.cls (chEq ')') 1 (some 1), RElem.cls isWs 0 (some 1),
   RElem.cls isDigitAscii 3 (some 3), RElem.cls sepChar 0 (some 1),
   RElem.cls isDigitAscii 4 (some 4)]

/-- Source pattern `\b1[-.\s]?\d{3}[-.\s]?\d{3}[-.\s]?\d{4}\b`. -/
def phonePat3 : List RElem :=
  [RElem.bnd, RElem.cls (chEq '1') 1 (some 1), RElem.cls sepChar 0 (some 1),
   RElem.cls isDigitAscii 3 (some 3), RElem.cls sepChar 0 (some 1),
   RElem.cls isDigitAscii 3 (some 3), RElem.cls sepChar 0 (some 1),
   RElem.cls isDigitAscii 4 (some 4), RElem.bnd]

/-- Source pattern `\+\d{1,3}[-.\s]?\d{3}[-.\s]?\d{3}[-.\s]?\d{4}`. -/
def phonePat4 : List RElem :=
  [RElem.cls (chEq '+') 1 (some 1), RElem.cls isDigitAscii 1 (some 3),
   RElem.cls sepChar 0 (some 1), RElem.cls isDigitAscii 3 (some 3),
   RElem.cls sepChar 0 (some 1), RElem.cls isDigitAscii 3 (some 3),
   RElem.cls sepChar 0 (some 1), RElem.cls isDigitAscii 4 (some 4)]

/-- Source pattern `\b[A-Za-z0-9._%+-]+@[A-Za-z0-9.-]+\.[A-Z|a-z]{2,}\b`. -/
def emailPat : List RElem :=
  [RElem.bnd, RElem.cls localChar 1 none, RElem.cls (chEq '@') 1 (some 1),
   RElem.cls domChar 1 none, RElem.cls (chEq '.') 1 (some 1),
   RElem.cls tldChar 2 none, RElem.bnd]

/-- `re.findall(email_pattern, cell)` of the source. -/
def findEmails (s : String) : List String := reFindAll emailPat s

/-- The source's `phones` accumulator: findall of each phone pattern in
order, concatenated. -/
def findPhones (s : String) : List String :=
  reFindAll phonePat1 s ++ reFindAll phonePat2 s ++
    reFindAll phonePat3 s ++ reFindAll phonePat4 s

/-! ## `is_person_name` (source lines 23-63) -/

/-- The source's `non_person_words` denylist, verbatim. -/
def nonPersonWords : List String :=
  ["return", "normal", "operations", "activate", "section", "page", "step",
   "procedure", "process", "system", "tool", "application", "recovery",
   "business", "continuity", "plan", "when", "if", "the", "this", "that",
   "contact", "engage", "determine", "communicate", "situation", "team",
   "activation", "equipment", "outage", "building", "location", "personnel"]

/-- Character class of the source's name regex `^[A-Za-z\s.\-']+$`. -/
def nameCharOk (c : Char) : Bool :=
  isAlphaAscii c || isWs c || chN c == 46 || chN c == 45 || chN c == 39

/-- `is_person_name` (source lines 23-63).  The Python guard
`not text or len(text) < 2` is the single test `length < 2`, since the
empty string has length 0; the regex `^[A-Za-z\s.\-']+$` on a string of
length ≥ 2 holds exactly when every character is in the class. -/
def is_person_name (text : String) : Bool :=
  let cs := text.data
  if cs.length < 2 then false
  else if nonPersonWords.any (fun w => charsContain w.data (cs.map lowerChar)) then false
  else if 50 < cs.length then false
  else if ¬ (cs.all nameCharOk = true) then false
  else if ¬ (cs.any isUpperAscii = true) then false
  else
    let ws := splitWs cs
    if ws.length < 2 ∨ 4 < ws.length then false
    else ws.all (fun w => decide (2 ≤ w.length ∧ w.length ≤ 20))

/-! ## `is_contact_table` (source lines 65-91) -/

/-- Does the first cell of the row pass `is_person_name` after stripping?
(The Python guard `row and len(row) > 0` is the match on a nonempty list.) -/
def personRow (row : List String) : Bool :=
  match row with
  | [] => false
  | c0 :: _ => is_person_name (pyStrip c0)

/-- Keyword test on a row's space-joined, lowercased text. -/
def rowHasKw (kws : List String) (row : List String) : Bool :=
  kws.any (fun k => pyIn k (pyLower (joinSpace row)))

/-- Header keyword list of `is_contact_table` (source lines 74-76). -/
def kw8 : List String :=
  ["name", "title", "phone", "mobile", "email", "contact", "role", "team member"]

/-- Header keyword list of `extract_contact_table`'s header-row search
(source line 105): note `role` and `team member` are absent. -/
def kw6 : List String :=
  ["name", "title", "phone", "mobile", "email", "contact"]

/-- `is_contact_table` (source lines 65-91).  `not table_data or
len(table_data) < 2` is the single test `length < 2`. -/
def is_contact_table (t : List (List String)) : Bool :=
  if t.length < 2 then false
  else if ¬ (((t.take 3).map (rowHasKw kw8)).any id = true) then false
  else decide (2 ≤ ((t.drop 1).take 5).countP personRow)

/-! ## `extract_contact_table` (source lines 93-211) -/

/-- A normalized contact record (the dict built at source lines 129-139;
the constant `"type": "team_member"` entry is omitted, `raw_data` kept). -/
structure Contact where
  name : String
  title : String
  phone : List String
  mobile : List String
  email : List String
  location : String
  description : String
  raw : List String
deriving Repr, DecidableEq

/-- The freshly initialised contact dict for a row. -/
def initContact (row : List String) : Contact :=
  { name := "", title := "", phone := [], mobile := [], email := [],
    location := "", description := "", raw := row }

/-- `f"field_{i}"`. -/
def fieldName (i : Nat) : String := "field_" ++ toString i

/-- The `["office", "building", "floor", "room"]` list at source line 202. -/
def locWords : List String := ["office", "building", "floor", "room"]

/-- The header/position mapping chain of the cell loop (source lines
170-205), taking the stripped cell text `cl` and the `emails`/`phones`
lists extracted from it (source lines 152-168). -/
def mapCellField (rowLen : Nat) (hdr : String) (i : Nat) (cl : String)
    (emails phones : List String) (c : Contact) : Contact :=
  if i = 0 ∨ pyIn "name" hdr = true then { c with name := cl }
    else if i = 1 ∨ pyIn "title" hdr = true ∨ pyIn "role" hdr = true then { c with title := cl }
    else if pyIn "phone" hdr = true ∧ pyIn "mobile" hdr = false then
      if phones ≠ [] then { c with phone := c.phone ++ phones }
      else if emails = [] ∧ 5 < cl.data.length then { c with phone := c.phone ++ [cl] }
      else c
    else if pyIn "mobile" hdr = true ∨ pyIn "cell" hdr = true then
      if phones ≠ [] then { c with mobile := c.mobile ++ phones }
      else if emails = [] ∧ 5 < cl.data.length then { c with mobile := c.mobile ++ [cl] }
      else c
    else if pyIn "location" hdr = true ∨ pyIn "site" hdr = true then { c with location := cl }
    else if pyIn "description" hdr = true ∨ pyIn "notes" hdr = true then
      { c with description := cl }
    else if pyIn "email" hdr = true then
      if emails = [] then { c with email := c.email ++ [cl] } else c
    else
      if emails ≠ [] then { c with email := c.email ++ emails }
      else if phones ≠ [] then
        if pyIn "mobile" (pyLower cl) = true ∨ c.phone ≠ [] then
          { c with mobile := c.mobile ++ phones }
        else { c with phone := c.phone ++ phones }
      else if i = rowLen - 1 ∧ 10 < cl.data.length then
        if c.location = "" ∧ locWords.any (fun w => pyIn w (pyLower cl)) = true then
          { c with location := cl }
        else if c.description = "" then { c with description := cl }
        else c
      else c

/-- One iteration of the cell loop (source lines 142-205): strip the cell,
skip it if blank, extract emails and phones, pre-extend `email` with all
email-regex matches (source line 156), then run the mapping chain. -/
def processCell (rowLen : Nat) (hdr : String) (i : Nat) (cell : String) (c : Contact) :
    Contact :=
  let cl := pyStrip cell
  if cl.data.isEmpty then c
  else
    mapCellField rowLen hdr i cl (findEmails cl) (findPhones cl)
      { c with email := c.email ++ findEmails cl }

/-- The cell loop `for i, cell in enumerate(row)` with its
`if i >= len(headers): break` (source lines 142-144). -/
def foldCells (rowLen : Nat) (hs : List String) : Nat → List String → Contact → Contact
  | _, [], c => c
  | i, cell :: rest, c =>
      if i < hs.length then
        foldCells rowLen hs (i + 1) rest (processCell rowLen (hs.getD i (fieldName i)) i cell c)
      else c

/-- One iteration of the row loop (source lines 121-209): skip all-blank
rows, skip rows whose first cell is not a person name, fold the cells, and
emit the contact only if its `name` is nonempty and re-passes
`is_person_name`. -/
def processRow (hs : List String) (row : List String) : Option Contact :=
  if row.all (fun cell => (pyStrip cell).data.isEmpty) = true then none
  else
    match row with
    | [] => none
    | c0 :: _ =>
      if is_person_name (pyStrip c0) = false then none
      else
        let c := foldCells row.length hs 0 row (initContact row)
        if c.name ≠ "" ∧ is_person_name c.name = true then some c else none

/-- The synthesized positional headers (source lines 112-115), defined for
the column count `n` of row 0: `["name","title","contact_info"]` followed by
`field_i` for `i` in `range(3, n)`. -/
def synthHeaders (n : Nat) : List String :=
  ["name", "title", "contact_info"] ++ (List.range' 3 (n - 3)).map fieldName

/-- The header-row search loop (source lines 102-108): first row, over ALL
rows, whose joined lowercased text contains a `kw6` keyword; its cells are
lowercased then stripped. -/
def findHeaderRowAux : Nat → List (List String) → Option (Nat × List String)
  | _, [] => none
  | i, row :: rest =>
      if rowHasKw kw6 row = true then some (i, row.map (fun col => pyStrip (pyLower col)))
      else findHeaderRowAux (i + 1) rest

/-- `findHeaderRowAux` from index 0. -/
def findHeaderRow (t : List (List String)) : Option (Nat × List String) :=
  findHeaderRowAux 0 t

/-- `extract_contact_table` (source lines 93-211).  When no header row is
found, headers are synthesized only if row 0 has at least 3 cells
(source line 112), otherwise `headers` stays `[]`; in both no-header cases
the data scan starts at row 0. -/
def extract_contact_table (t : List (List String)) : List Contact :=
  if is_contact_table t = false then []
  else
    match findHeaderRow t with
    | some (i, hs) => (t.drop (i + 1)).filterMap (processRow hs)
    | none =>
      let hs := if 3 ≤ (t.getD 0 []).length then synthHeaders (t.getD 0 []).length else []
      t.filterMap (processRow hs)

/-! ## Theorems about the claims -/

set_option maxRecDepth 10000

/-- C1: on the table `[["Name","Title","Phone"],["Jane Smith","Team Lead",
"555-123-4567"],["Robert Jones","Analyst","555-987-6543"]]`,
`is_contact_table` returns `true` and `extract_contact_table` returns
exactly two records in row order: Jane Smith / Team Lead / phone
`["555-123-4567"]` and Robert Jones / Analyst / phone `["555-987-6543"]`,
with `mobile` and `email` empty and `location` and `description` empty in
both. -/
theorem c1_scenario_a :
    is_contact_table
        [["Name", "Title", "Phone"], ["Jane Smith", "Team Lead", "555-123-4567"],
          ["Robert Jones", "Analyst", "555-987-6543"]] = true ∧
    extract_contact_table
        [["Name", "Title", "Phone"], ["Jane Smith", "Team Lead", "555-123-4567"],
          ["Robert Jones", "Analyst", "555-987-6543"]] =
      [{ name := "Jane Smith", title := "Team Lead", phone := ["555-123-4567"],
         mobile := [], email := [], location := "", description := "",
         raw := ["Jane Smith", "Team Lead", "555-123-4567"] },
       { name := "Robert Jones", title := "Analyst", phone := ["555-987-6543"],
         mobile := [], email := [], location := "", description := "",
         raw := ["Robert Jones", "Analyst", "555-987-6543"] }] := by
  decide

/-- C9: "Matthew Smith" is an ordinary two-token capitalized alphabetic name
(length under 50, tokens of length 2-20, matching the name pattern) that
`is_person_name` nevertheless rejects, because the denylist test checks
substring containment of each denylisted word in the lowercased text and
the denylisted stopword "the" occurs inside "matthew". -/
theorem c9_matthew_smith :
    is_person_name "Matthew Smith" = false ∧
    "the" ∈ nonPersonWords ∧
    charsContain "the".data ("Matthew Smith".data.map lowerChar) = true ∧
    "Matthew Smith".data.length ≤ 50 ∧
    "Matthew Smith".data.all nameCharOk = true ∧
    "Matthew Smith".data.any isUpperAscii = true ∧
    splitWs "Matthew Smith".data = ["Matthew".data, "Smith".data] ∧
    (∀ w ∈ splitWs "Matthew Smith".data, 2 ≤ w.length ∧ w.length ≤ 20) := by
  decide

/-- C7: every table with fewer than 2 rows (including the zero-row table)
is rejected by `is_contact_table` and yields an empty extraction.  (Both
operations are total Lean functions over arbitrary lists of rows of
strings, mirroring that the Python source guards every index access, so
neither can raise.) -/
theorem c7_small_tables (t : List (List String)) (h : t.length < 2) :
    is_contact_table t = false ∧ extract_contact_table t = [] := by
  have h1 : is_contact_table t = false := by
    unfold is_contact_table
    simp [h]
  refine ⟨h1, ?_⟩
  unfold extract_contact_table
  simp [h1]

/-- Witness for C7 at the one-row table `[["x"]]`. -/
theorem c7_witness :
    is_contact_table [["x"]] = false ∧ extract_contact_table [["x"]] = [] :=
  c7_small_tables [["x"]] (by decide)

/-- `any id` over a mapped list is `any` of the function (used to relate the
source's `header_indicators` list to the claim's phrasing). -/
theorem anyMapKw8 (l : List (List String)) :
    ((l.map (rowHasKw kw8)).any id) = l.any (rowHasKw kw8) := by
  induction l with
  | nil => rfl
  | cons a l ih => simp [ih]

/-- C2: `is_contact_table` returns true iff all three gates hold: at least
2 rows; one of the first 3 rows' space-joined lowercase text contains one
of the 8 keywords; and at least 2 of rows 1..5 (0-indexed, after the
presumed header row 0) have a first cell whose stripped text passes
`is_person_name`. -/
theorem c2_contact_table_iff (t : List (List String)) :
    is_contact_table t = true ↔
      2 ≤ t.length ∧
      (t.take 3).any (rowHasKw kw8) = true ∧
      2 ≤ ((t.drop 1).take 5).countP personRow := by
  unfold is_contact_table
  rw [anyMapKw8]
  split_ifs with h1 h2
  · constructor
    · intro h
      simp at h
    · rintro ⟨hl, -, -⟩
      omega
  · simp only [decide_eq_true_eq]
    exact ⟨fun h => ⟨by omega, h2, h⟩, fun h => h.2.2⟩
  · constructor
    · intro h
      simp at h
    · rintro ⟨-, hkw, -⟩
      exact h2 hkw

/-- Witness for C2 at the Scenario A table. -/
theorem c2_witness :
    is_contact_table
      [["Name", "Title", "Phone"], ["Jane Smith", "Team Lead", "555-123-4567"],
        ["Robert Jones", "Analyst", "555-987-6543"]] = true :=
  (c2_contact_table_iff _).mpr (by decide)

/-- A row accepted by the row loop yields a contact whose name is nonempty
and re-passes `is_person_name` (the emission guard at source line 208). -/
theorem processRow_name (hs row : List String) (c : Contact)
    (h : processRow hs row = some c) :
    c.name ≠ "" ∧ is_person_name c.name = true := by
  unfold processRow at h
  split at h
  · exact absurd h (by simp)
  · split at h
    · exact absurd h (by simp)
    · split at h
      · exact absurd h (by simp)
      · simp only [ne_eq] at h
        split at h
        next hg =>
          cases h
          exact ⟨hg.1, hg.2⟩
        · exact absurd h (by simp)

/-- C4: every record returned by `extract_contact_table` has a nonempty
name that passes `is_person_name`, and a table rejected by
`is_contact_table` yields zero records. -/
theorem c4_name_invariant (t : List (List String)) :
    (∀ r ∈ extract_contact_table t, r.name ≠ "" ∧ is_person_name r.name = true) ∧
    (is_contact_table t = false → extract_contact_table t = []) := by
  constructor
  · intro r hr
    unfold extract_contact_table at hr
    split at hr
    · simp at hr
    · split at hr
      · simp only [List.mem_filterMap] at hr
        obtain ⟨row, -, hp⟩ := hr
        exact processRow_name _ _ _ hp
      · simp only [List.mem_filterMap] at hr
        obtain ⟨row, -, hp⟩ := hr
        exact processRow_name _ _ _ hp
  · intro h
    unfold extract_contact_table
    simp [h]

/-- Witness for C4: the name invariant applied to the first record of the
Scenario A table, and the zero-record conclusion at the Scenario B table
(which `is_contact_table` rejects). -/
theorem c4_witness :
    is_person_name "Jane Smith" = true ∧
    extract_contact_table [["Step", "Action"], ["1", "Notify manager"], ["2", "Escalate to IT"]] = [] := by
  constructor
  · have h := (c4_name_invariant
      [["Name", "Title", "Phone"], ["Jane Smith", "Team Lead", "555-123-4567"],
        ["Robert Jones", "Analyst", "555-987-6543"]]).1
      { name := "Jane Smith", title := "Team Lead", phone := ["555-123-4567"],
        mobile := [], email := [], location := "", description := "",
        raw := ["Jane Smith", "Team Lead", "555-123-4567"] } (by decide)
    exact h.2
  · exact (c4_name_invariant _).2 (by decide)

/-- Tokens joined by single spaces (the claim's "space-separated tokens"). -/
def joinToks : List (List Char) → List Char
  | [] => []
  | [t] => t
  | t :: rest => t ++ ' ' :: joinToks rest

theorem alpha_nameCharOk (c : Char) (h : isAlphaAscii c = true) : nameCharOk c = true := by
  simp [nameCharOk, h]

theorem alpha_not_ws (c : Char) (h : isAlphaAscii c = true) : isWs c = false := by
  simp [isAlphaAscii, isUpperAscii, isLowerAscii, chN] at h
  simp [isWs, chN]
  omega

theorem joinToks_all_ok (toks : List (List Char))
    (h : ∀ w ∈ toks, w.all isAlphaAscii = true) :
    (joinToks toks).all nameCharOk = true := by
  induction toks with
  | nil => rfl
  | cons w rest ih =>
    cases rest with
    | nil =>
      simp only [joinToks, List.all_eq_true]
      intro c hc
      exact alpha_nameCharOk c (List.all_eq_true.mp (h w (by simp)) c hc)
    | cons u us =>
      simp only [joinToks, List.all_eq_true, List.mem_append, List.mem_cons]
      rintro c (hc | hc | hc)
      · exact alpha_nameCharOk c (List.all_eq_true.mp (h w (by simp)) c hc)
      · subst hc
        decide
      · have := ih (fun v hv => h v (by simp [hv]))
        rw [List.all_eq_true] at this
        exact this c hc

theorem splitWsAux_skip (t : List Char) :
    ∀ (acc cs : List Char), (∀ c ∈ t, isWs c = false) →
      splitWsAux acc (t ++ cs) = splitWsAux (t.reverse ++ acc) cs := by
  induction t with
  | nil => intro acc cs _; simp
  | cons c t ih =>
    intro acc cs h
    have hc : isWs c = false := h c (by simp)
    have hstep : splitWsAux acc (c :: (t ++ cs)) = splitWsAux (c :: acc) (t ++ cs) := by
      simp [splitWsAux, hc]
    rw [List.cons_append, hstep, ih (c :: acc) cs (fun d hd => h d (by simp [hd]))]
    simp

theorem splitWs_joinToks :
    ∀ toks : List (List Char), toks ≠ [] →
      (∀ w ∈ toks, w ≠ [] ∧ (∀ c ∈ w, isWs c = false)) →
      splitWs (joinToks toks) = toks := by
  intro toks
  induction toks with
  | nil => intro h; exact absurd rfl h
  | cons w rest ih =>
    intro _hne h
    obtain ⟨hw, hwc⟩ := h w (by simp)
    cases rest with
    | nil =>
      show splitWsAux [] (joinToks [w]) = [w]
      have : joinToks [w] = w ++ [] := by simp [joinToks]
      rw [this, splitWsAux_skip w [] [] hwc]
      have hrev : (w.reverse ++ []).isEmpty = false := by
        simp [List.isEmpty_iff, hw]
      simp [splitWsAux, hrev, hw]
    | cons u us =>
      show splitWsAux [] (joinToks (w :: u :: us)) = w :: u :: us
      have hj : joinToks (w :: u :: us) = w ++ (' ' :: joinToks (u :: us)) := rfl
      rw [hj, splitWsAux_skip w [] (' ' :: joinToks (u :: us)) hwc]
      have hrev : (w.reverse ++ []).isEmpty = false := by
        simp [List.isEmpty_iff, hw]
      have hsp : isWs ' ' = true := by decide
      have hstep : splitWsAux (w.reverse ++ []) (' ' :: joinToks (u :: us)) =
          (w.reverse ++ []).reverse :: splitWsAux [] (joinToks (u :: us)) := by
        simp [splitWsAux, hsp, hrev, hw]
      rw [hstep]
      have := ih (by simp) (fun v hv => h v (by simp [hv]))
      rw [show splitWsAux [] (joinToks (u :: us)) = splitWs (joinToks (u :: us)) from rfl, this]
      simp [hw]

theorem chStarts_map (f : Char → Char) :
    ∀ (n h : List Char), chStarts n h = true → chStarts (n.map f) (h.map f) = true := by
  intro n
  induction n with
  | nil => intro h _; rfl
  | cons a as ih =>
    intro h hst
    cases h with
    | nil => exact absurd hst (by simp [chStarts])
    | cons b bs =>
      simp only [chStarts, Bool.and_eq_true, beq_iff_eq] at hst
      obtain ⟨rfl, hrest⟩ := hst
      simp [chStarts, ih bs hrest]

theorem charsContain_map (f : Char → Char) (n : List Char) :
    ∀ h : List Char, charsContain n h = true → charsContain (n.map f) (h.map f) = true := by
  intro h
  induction h with
  | nil =>
    intro hc
    simp only [charsContain, List.isEmpty_iff] at hc
    subst hc
    rfl
  | cons b bs ih =>
    intro hc
    simp only [charsContain, Bool.or_eq_true] at hc ⊢
    rcases hc with hc | hc
    · exact Or.inl (chStarts_map f n (b :: bs) hc)
    · exact Or.inr (ih hc)

theorem deny_lower_fixed : ∀ d ∈ nonPersonWords, d.data.map lowerChar = d.data := by
  decide

theorem digit_not_nameChar (c : Char) (h : isDigitAscii c = true) : nameCharOk c = false := by
  simp [isDigitAscii, chN] at h
  simp [nameCharOk, isAlphaAscii, isUpperAscii, isLowerAscii, isWs, chN]
  omega

theorem uscore_not_nameChar (c : Char) (h : chN c == 95) : nameCharOk c = false := by
  simp [chN] at h
  simp [nameCharOk, isAlphaAscii, isUpperAscii, isLowerAscii, isWs, chN]
  omega

theorem is_person_name_checks (s : String) (h : is_person_name s = true) :
    s.data.all nameCharOk = true ∧
    (∀ d ∈ nonPersonWords, charsContain d.data (s.data.map lowerChar) = false) := by
  unfold is_person_name at h
  simp only [decide_eq_true_eq] at h
  split_ifs at h with h1 h2 h3 h4 h5 h6
  refine ⟨h4, ?_⟩
  intro d hd
  have h2' : nonPersonWords.any (fun w => charsContain w.data (s.data.map lowerChar)) = false := by
    cases hx : nonPersonWords.any (fun w => charsContain w.data (s.data.map lowerChar))
    · rfl
    · exact absurd hx h2
  rw [List.any_eq_false] at h2'
  have := h2' d hd
  simpa using this

/-- C3 counterexample: the string of four 20-letter capitalized alphabetic
tokens separated by single spaces satisfies every premise of the claim
(2-4 space-separated alphabetic tokens each 2-20 chars, no denylisted
substring, an uppercase letter, pattern-only characters), yet
`is_person_name` returns `false`, because the total length 83 exceeds the
source's 50-character cap, which the claim omits. -/
theorem c3_counterexample :
    is_person_name
      "Qqqqqqqqqqqqqqqqqqqq Qqqqqqqqqqqqqqqqqqqq Qqqqqqqqqqqqqqqqqqqq Qqqqqqqqqqqqqqqqqqqq"
      = false ∧
    (splitWs ("Qqqqqqqqqqqqqqqqqqqq Qqqqqqqqqqqqqqqqqqqq Qqqqqqqqqqqqqqqqqqqq Qqqqqqqqqqqqqqqqqqqq").data).length = 4 ∧
    (∀ w ∈ splitWs ("Qqqqqqqqqqqqqqqqqqqq Qqqqqqqqqqqqqqqqqqqq Qqqqqqqqqqqqqqqqqqqq Qqqqqqqqqqqqqqqqqqqq").data,
      2 ≤ w.length ∧ w.length ≤ 20 ∧ w.all isAlphaAscii = true) ∧
    (∀ d ∈ nonPersonWords,
      charsContain d.data
        (("Qqqqqqqqqqqqqqqqqqqq Qqqqqqqqqqqqqqqqqqqq Qqqqqqqqqqqqqqqqqqqq Qqqqqqqqqqqqqqqqqqqq").data.map lowerChar) = false) ∧
    ("Qqqqqqqqqqqqqqqqqqqq Qqqqqqqqqqqqqqqqqqqq Qqqqqqqqqqqqqqqqqqqq Qqqqqqqqqqqqqqqqqqqq").data.any isUpperAscii = true ∧
    ("Qqqqqqqqqqqqqqqqqqqq Qqqqqqqqqqqqqqqqqqqq Qqqqqqqqqqqqqqqqqqqq Qqqqqqqqqqqqqqqqqqqq").data.all nameCharOk = true ∧
    joinToks (splitWs ("Qqqqqqqqqqqqqqqqqqqq Qqqqqqqqqqqqqqqqqqqq Qqqqqqqqqqqqqqqqqqqq Qqqqqqqqqqqqqqqqqqqq").data) =
      ("Qqqqqqqqqqqqqqqqqqqq Qqqqqqqqqqqqqqqqqqqq Qqqqqqqqqqqqqqqqqqqq Qqqqqqqqqqqqqqqqqqqq").data := by
  decide

/-- C3 amended: for every list of 2-4 space-separated ASCII-alphabetic
tokens, each 2-20 characters long, whose joined text has AT MOST 50
CHARACTERS (the condition the source imposes and the claim omitted), has
no denylisted substring in its lowercased form, and contains an uppercase
letter, `is_person_name` returns true; and for every string containing a
digit, an underscore, or a denylisted keyword, it returns false. -/
theorem c3_amended :
    (∀ toks : List (List Char),
        2 ≤ toks.length → toks.length ≤ 4 →
        (∀ w ∈ toks, 2 ≤ w.length ∧ w.length ≤ 20 ∧ w.all isAlphaAscii = true) →
        (joinToks toks).length ≤ 50 →
        (∀ d ∈ nonPersonWords,
          charsContain d.data ((joinToks toks).map lowerChar) = false) →
        (joinToks toks).any isUpperAscii = true →
        is_person_name ⟨joinToks toks⟩ = true) ∧
    (∀ s : String,
        (s.data.any isDigitAscii = true ∨ s.data.any (fun c => chN c == 95) = true ∨
          ∃ d ∈ nonPersonWords, charsContain d.data s.data = true) →
        is_person_name s = false) := by
  constructor
  · intro toks hl2 hl4 htok h50 hdeny hup
    cases toks with
    | nil => simp at hl2
    | cons a tl =>
      cases tl with
      | nil => simp at hl2
      | cons b rest =>
        have ha := htok a (by simp)
        have hj : joinToks (a :: b :: rest) = a ++ ' ' :: joinToks (b :: rest) := rfl
        have hlen2 : ¬ ((joinToks (a :: b :: rest)).length < 2) := by
          rw [hj]
          simp only [List.length_append, List.length_cons]
          omega
        have hall : (joinToks (a :: b :: rest)).all nameCharOk = true :=
          joinToks_all_ok _ (fun w hw => (htok w hw).2.2)
        have hsplit : splitWs (joinToks (a :: b :: rest)) = a :: b :: rest := by
          apply splitWs_joinToks _ (by simp)
          intro w hw
          obtain ⟨h2w, -, hallw⟩ := htok w hw
          refine ⟨?_, ?_⟩
          · intro hnil
            rw [hnil] at h2w
            simp at h2w
          · intro c hc
            exact alpha_not_ws c (List.all_eq_true.mp hallw c hc)
        have hdeny' : ¬ ((nonPersonWords.any
            (fun w => charsContain w.data ((joinToks (a :: b :: rest)).map lowerChar))) = true) := by
          rw [List.any_eq_true]
          rintro ⟨d, hd, hc⟩
          rw [hdeny d hd] at hc
          exact absurd hc (by simp)
        unfold is_person_name
        have hdata : (⟨joinToks (a :: b :: rest)⟩ : String).data = joinToks (a :: b :: rest) := rfl
        simp only [hdata]
        rw [if_neg hlen2, if_neg hdeny', if_neg (by omega), if_neg (not_not_intro hall),
          if_neg (not_not_intro hup)]
        simp only [hsplit]
        rw [if_neg (by simp only [List.length_cons] at hl4 ⊢; omega)]
        rw [List.all_eq_true]
        intro w hw
        have := htok w hw
        simp only [decide_eq_true_eq]
        exact ⟨this.1, this.2.1⟩
  · intro s hcase
    cases hval : is_person_name s
    · rfl
    · exfalso
      obtain ⟨hall, hdenyS⟩ := is_person_name_checks s hval
      rcases hcase with hc | hc | ⟨d, hd, hc⟩
      · obtain ⟨c, hcmem, hcd⟩ := List.any_eq_true.mp hc
        have hok := List.all_eq_true.mp hall c hcmem
        rw [digit_not_nameChar c hcd] at hok
        exact absurd hok (by simp)
      · obtain ⟨c, hcmem, hcd⟩ := List.any_eq_true.mp hc
        have hok := List.all_eq_true.mp hall c hcmem
        rw [uscore_not_nameChar c hcd] at hok
        exact absurd hok (by simp)
      · have h1 := charsContain_map lowerChar d.data s.data hc
        rw [deny_lower_fixed d hd] at h1
        rw [hdenyS d hd] at h1
        exact absurd h1 (by simp)

/-- Witness for C3 amended: the two-token name built from tokens
`Jane`/`Smith` is accepted; `"Ab1 Cd"` (contains a digit) is rejected. -/
theorem c3_witness :
    is_person_name ⟨joinToks [['J','a','n','e'], ['S','m','i','t','h']]⟩ = true ∧
    is_person_name "Ab1 Cd" = false := by
  constructor
  · exact c3_amended.1 [['J','a','n','e'], ['S','m','i','t','h']]
      (by decide) (by decide) (by decide) (by decide) (by decide) (by decide)
  · exact c3_amended.2 "Ab1 Cd" (Or.inl (by decide))

/-- First-match characterization of the header-row search loop
(source lines 102-108), for any starting index. -/
theorem findHeaderRowAux_spec (t : List (List String)) :
    ∀ (i0 i : Nat) (hs : List String), findHeaderRowAux i0 t = some (i, hs) →
      i0 ≤ i ∧ i - i0 < t.length ∧ rowHasKw kw6 (t.getD (i - i0) []) = true ∧
      (∀ j, j < i - i0 → rowHasKw kw6 (t.getD j []) = false) ∧
      hs = (t.getD (i - i0) []).map (fun col => pyStrip (pyLower col)) := by
  induction t with
  | nil => intro i0 i hs h; exact absurd h (by simp [findHeaderRowAux])
  | cons row rest ih =>
    intro i0 i hs h
    unfold findHeaderRowAux at h
    split at h
    next hkw =>
      cases h
      refine ⟨le_refl i0, by simp, ?_, ?_, ?_⟩
      · simpa using hkw
      · intro j hj
        omega
      · simp
    next hkw =>
      obtain ⟨hle, hlt, hkw', hprev, hhs⟩ := ih (i0 + 1) i hs h
      have hi : i0 + 1 ≤ i := hle
      have hsub : i - i0 = (i - (i0 + 1)) + 1 := by omega
      refine ⟨by omega, by simp; omega, ?_, ?_, ?_⟩
      · rw [hsub]
        simpa using hkw'
      · intro j hj
        cases j with
        | zero =>
          simp only [List.getD_cons_zero]
          cases hx : rowHasKw kw6 row
          · rfl
          · exact absurd hx (by simpa using hkw)
        | succ j' =>
          rw [hsub] at hj
          have := hprev j' (by omega)
          simpa using this
      · rw [hsub]
        simpa using hhs

/-- C5 amended: on an accepted table, the extractor's header row is the
FIRST ROW OF THE WHOLE TABLE (not only of the first 3 rows) whose
lowercased joined text contains one of the SIX keywords
`{name,title,phone,mobile,email,contact}` (`role` and `team member` are
not searched for); its cells, lowercased and stripped, become the headers,
and only the rows after it are parsed as data rows. -/
theorem c5_amended (t : List (List String)) (i : Nat) (hs : List String)
    (hacc : is_contact_table t = true) (hfind : findHeaderRow t = some (i, hs)) :
    i < t.length ∧ rowHasKw kw6 (t.getD i []) = true ∧
    (∀ j, j < i → rowHasKw kw6 (t.getD j []) = false) ∧
    hs = (t.getD i []).map (fun col => pyStrip (pyLower col)) ∧
    extract_contact_table t = (t.drop (i + 1)).filterMap (processRow hs) := by
  obtain ⟨-, hlt, hkw, hprev, hhs⟩ := findHeaderRowAux_spec t 0 i hs hfind
  simp only [Nat.sub_zero] at hlt hkw hprev hhs
  refine ⟨hlt, hkw, hprev, hhs, ?_⟩
  unfold extract_contact_table
  rw [hacc, hfind]
  simp

/-- C5 counterexample: the table `[["Role"],["Jane Smith"],["Bob Jones"]]`
is accepted by `is_contact_table` and its row 0 contains the 8-set keyword
`role`, so per the claim row 0 would be recorded as the header row (and
parsing rows 1.. with those headers would yield records); but the
extractor's header search uses only the 6-keyword set, finds no header row
at all, and returns zero records. -/
theorem c5_counterexample :
    is_contact_table [["Role"], ["Jane Smith"], ["Bob Jones"]] = true ∧
    rowHasKw kw8 ["Role"] = true ∧
    findHeaderRow [["Role"], ["Jane Smith"], ["Bob Jones"]] = none ∧
    extract_contact_table [["Role"], ["Jane Smith"], ["Bob Jones"]] = [] ∧
    ([["Jane Smith"], ["Bob Jones"]] : List (List String)).filterMap (processRow ["role"]) ≠ [] := by
  decide

/-- Witness for C5 amended at the Scenario A table (header row 0). -/
theorem c5_witness :
    rowHasKw kw6
      ([["Name", "Title", "Phone"], ["Jane Smith", "Team Lead", "555-123-4567"],
        ["Robert Jones", "Analyst", "555-987-6543"]].getD 0 []) = true ∧
    extract_contact_table
      [["Name", "Title", "Phone"], ["Jane Smith", "Team Lead", "555-123-4567"],
        ["Robert Jones", "Analyst", "555-987-6543"]] =
      ([["Name", "Title", "Phone"], ["Jane Smith", "Team Lead", "555-123-4567"],
        ["Robert Jones", "Analyst", "555-987-6543"]].drop (0 + 1)).filterMap
        (processRow ["name", "title", "phone"]) := by
  have h := c5_amended
    [["Name", "Title", "Phone"], ["Jane Smith", "Team Lead", "555-123-4567"],
      ["Robert Jones", "Analyst", "555-987-6543"]]
    0 ["name", "title", "phone"] (by decide) (by decide)
  exact ⟨h.2.1, h.2.2.2.2⟩

/-- A row processed against empty headers yields no contact: the cell loop
breaks immediately (`0 >= len(headers)`), the name stays empty, and the
emission guard fails. -/
theorem processRow_nil_headers (row : List String) : processRow [] row = none := by
  unfold processRow
  split
  · rfl
  · split
    · rfl
    · split
      · rfl
      · have hfold : ∀ r : List String, foldCells r.length [] 0 r (initContact r) = initContact r := by
          intro r
          cases r with
          | nil => rfl
          | cons a l => simp [foldCells]
        rw [hfold]
        simp [initContact]

/-- On an accepted table with no header row found, the extractor scans all
rows with the synthesized headers if row 0 has at least 3 cells, else with
empty headers (source lines 110-119). -/
theorem extract_none_branch (t : List (List String))
    (hacc : is_contact_table t = true) (hnone : findHeaderRow t = none) :
    extract_contact_table t =
      t.filterMap (processRow
        (if 3 ≤ (t.getD 0 []).length then synthHeaders (t.getD 0 []).length else [])) := by
  unfold extract_contact_table
  rw [hacc, hnone]
  rfl

/-- C6 amended: on an accepted table where no row qualifies as a header
row, positional headers `["name","title","contact_info","field_3",...]`
(one per column of row 0) are synthesized and row 0 is treated as data
ONLY IF ROW 0 HAS AT LEAST 3 COLUMNS; with fewer columns the headers stay
empty and the extractor returns no records at all. -/
theorem c6_amended (t : List (List String))
    (hacc : is_contact_table t = true) (hnone : findHeaderRow t = none) :
    (3 ≤ (t.getD 0 []).length →
        extract_contact_table t =
          t.filterMap (processRow (synthHeaders (t.getD 0 []).length)) ∧
        (synthHeaders (t.getD 0 []).length).length = (t.getD 0 []).length) ∧
    ((t.getD 0 []).length < 3 → extract_contact_table t = []) := by
  constructor
  · intro h3
    constructor
    · rw [extract_none_branch t hacc hnone, if_pos h3]
    · simp only [synthHeaders, List.length_append, List.length_cons, List.length_nil,
        List.length_map, List.length_range']
      omega
  · intro h3
    rw [extract_none_branch t hacc hnone, if_neg (by omega)]
    rw [List.filterMap_eq_nil]
    intro row hrow
    exact processRow_nil_headers row

/-- C6 counterexample: the accepted table
`[["Role","X"],["Jane Smith","Aa"],["Bob Jones","Bb"]]` has no header row
and its row 0 has only 2 columns; the claim's synthesis (one header per
column of row 0, row 0 as data) would yield two records, but the code
synthesizes nothing and returns zero records. -/
theorem c6_counterexample :
    is_contact_table [["Role", "X"], ["Jane Smith", "Aa"], ["Bob Jones", "Bb"]] = true ∧
    findHeaderRow [["Role", "X"], ["Jane Smith", "Aa"], ["Bob Jones", "Bb"]] = none ∧
    ([["Role", "X"], ["Jane Smith", "Aa"], ["Bob Jones", "Bb"]].getD 0 []).length = 2 ∧
    extract_contact_table [["Role", "X"], ["Jane Smith", "Aa"], ["Bob Jones", "Bb"]] = [] ∧
    ([["Role", "X"], ["Jane Smith", "Aa"], ["Bob Jones", "Bb"]] : List (List String)).filterMap
      (processRow ["name", "title"]) ≠ [] := by
  decide

/-- Witness for C6 amended at an accepted headerless table whose row 0 has
3 columns. -/
theorem c6_witness :
    extract_contact_table [["Role", "Extra", "More"], ["Jane Smith", "Boss", "Desk"], ["Bob Jones", "Aide", "Desk"]] =
      ([["Role", "Extra", "More"], ["Jane Smith", "Boss", "Desk"], ["Bob Jones", "Aide", "Desk"]] :
        List (List String)).filterMap (processRow (synthHeaders 3)) ∧
    (synthHeaders 3).length = 3 := by
  have h := (c6_amended
    [["Role", "Extra", "More"], ["Jane Smith", "Boss", "Desk"], ["Bob Jones", "Aide", "Desk"]]
    (by decide) (by decide)).1 (by decide)
  exact h

/-- C8 amended: for a cell at index >= 2 whose header matches none of the
recognized keywords, which has phone matches and no email matches, the
numbers go to `mobile` when THE CELL'S LOWERCASED TEXT CONTAINS "mobile"
OR the record's phone list already has an entry, and to `phone` only
otherwise (source line 197 also tests the cell text, which the claim
omitted). -/
theorem c8_amended (rowLen i : Nat) (hdr cell : String) (c : Contact)
    (hne : (pyStrip cell).data.isEmpty = false)
    (hi0 : i ≠ 0) (hi1 : i ≠ 1)
    (hk : ∀ k ∈ (["name", "title", "role", "phone", "mobile", "cell", "location",
      "site", "description", "notes", "email"] : List String), pyIn k hdr = false)
    (hem : findEmails (pyStrip cell) = [])
    (hph : findPhones (pyStrip cell) ≠ []) :
    processCell rowLen hdr i cell c =
      (if pyIn "mobile" (pyLower (pyStrip cell)) = true ∨ c.phone ≠ [] then
        { c with mobile := c.mobile ++ findPhones (pyStrip cell) }
      else { c with phone := c.phone ++ findPhones (pyStrip cell) }) := by
  have hname := hk "name" (by simp)
  have htitle := hk "title" (by simp)
  have hrole := hk "role" (by simp)
  have hphone := hk "phone" (by simp)
  have hmob := hk "mobile" (by simp)
  have hcl := hk "cell" (by simp)
  have hloc := hk "location" (by simp)
  have hsite := hk "site" (by simp)
  have hdesc := hk "description" (by simp)
  have hnotes := hk "notes" (by simp)
  have hemail := hk "email" (by simp)
  unfold processCell mapCellField
  rw [if_neg (by simp [hne])]
  simp only [hem, hname, htitle, hrole, hphone, hmob, hcl, hloc, hsite, hdesc, hnotes,
    hemail, hi0, hi1, List.append_nil, Bool.false_eq_true, false_or, or_false, if_false,
    false_and, and_true, true_and, and_false,
    ne_eq, not_false_eq_true, not_true_eq_false, if_true, hph]

/-- C8 counterexample: in the accepted table with headers
`["name","title","info"]`, Jane Smith's cell `"mobile 555-123-4567"` sits
under the keyword-free header `info`, has a phone match and no email
match, and the record's phone list is empty, so per the claim the number
would go to `phone`; the code routes it to `mobile` because the cell text
contains "mobile". -/
theorem c8_counterexample :
    (extract_contact_table
      [["Name", "Title", "Info"], ["Jane Smith", "Boss", "mobile 555-123-4567"],
        ["Bob Jones", "Aide", "555-987-6543"]]).map (fun r => (r.phone, r.mobile)) =
      [([], ["555-123-4567"]), (["555-987-6543"], [])] ∧
    findHeaderRow
      [["Name", "Title", "Info"], ["Jane Smith", "Boss", "mobile 555-123-4567"],
        ["Bob Jones", "Aide", "555-987-6543"]] = some (0, ["name", "title", "info"]) ∧
    (∀ k ∈ (["name", "title", "role", "phone", "mobile", "cell", "location",
      "site", "description", "notes", "email"] : List String), pyIn k "info" = false) ∧
    findEmails (pyStrip "mobile 555-123-4567") = [] ∧
    findPhones (pyStrip "mobile 555-123-4567") = ["555-123-4567"] := by
  decide

/-- Witness for C8 amended: a plain phone cell with no "mobile" in its
text and an empty phone list goes to `phone`. -/
theorem c8_witness :
    processCell 3 "info" 2 "555-987-6543"
      (initContact ["Bob Jones", "Aide", "555-987-6543"]) =
      { initContact ["Bob Jones", "Aide", "555-987-6543"] with
        phone := ["555-987-6543"] } := by
  rw [c8_amended 3 2 "info" "555-987-6543" (initContact ["Bob Jones", "Aide", "555-987-6543"])
    (by decide) (by decide) (by decide) (by decide) (by decide) (by decide)]
  decide

/-- The mapping chain never removes entries from `email`: whatever was in
the record's email list stays there. -/

theorem mapCell_email_mem (rowLen : Nat) (hdr : String) (i : Nat) (cl : String)
    (emails phones : List String) (c : Contact) (e : String) (he : e ∈ c.email) :
    e ∈ (mapCellField rowLen hdr i cl emails phones c).email := by
  unfold mapCellField
  by_cases h1 : i = 0 ∨ pyIn "name" hdr = true
  · rw [if_pos h1]; exact he
  rw [if_neg h1]
  by_cases h2 : i = 1 ∨ pyIn "title" hdr = true ∨ pyIn "role" hdr = true
  · rw [if_pos h2]; exact he
  rw [if_neg h2]
  by_cases h3 : pyIn "phone" hdr = true ∧ pyIn "mobile" hdr = false
  · rw [if_pos h3]
    by_cases h3a : phones ≠ []
    · rw [if_pos h3a]; exact he
    rw [if_neg h3a]
    by_cases h3b : emails = [] ∧ 5 < cl.data.length
    · rw [if_pos h3b]; exact he
    · rw [if_neg h3b]; exact he
  rw [if_neg h3]
  by_cases h4 : pyIn "mobile" hdr = true ∨ pyIn "cell" hdr = true
  · rw [if_pos h4]
    by_cases h4a : phones ≠ []
    · rw [if_pos h4a]; exact he
    rw [if_neg h4a]
    by_cases h4b : emails = [] ∧ 5 < cl.data.length
    · rw [if_pos h4b]; exact he
    · rw [if_neg h4b]; exact he
  rw [if_neg h4]
  by_cases h5 : pyIn "location" hdr = true ∨ pyIn "site" hdr = true
  · rw [if_pos h5]; exact he
  rw [if_neg h5]
  by_cases h6 : pyIn "description" hdr = true ∨ pyIn "notes" hdr = true
  · rw [if_pos h6]; exact he
  rw [if_neg h6]
  by_cases h7 : pyIn "email" hdr = true
  · rw [if_pos h7]
    by_cases h7a : emails = []
    · rw [if_pos h7a]; exact List.mem_append_left _ he
    · rw [if_neg h7a]; exact he
  rw [if_neg h7]
  by_cases d1 : emails ≠ []
  · rw [if_pos d1]; exact List.mem_append_left _ he
  rw [if_neg d1]
  by_cases d2 : phones ≠ []
  · rw [if_pos d2]
    by_cases d3 : pyIn "mobile" (pyLower cl) = true ∨ c.phone ≠ []
    · rw [if_pos d3]; exact he
    · rw [if_neg d3]; exact he
  rw [if_neg d2]
  by_cases d4 : i = rowLen - 1 ∧ 10 < cl.data.length
  · rw [if_pos d4]
    by_cases d5 : c.location = "" ∧ locWords.any (fun w => pyIn w (pyLower cl)) = true
    · rw [if_pos d5]; exact he
    rw [if_neg d5]
    by_cases d6 : c.description = ""
    · rw [if_pos d6]; exact he
    · rw [if_neg d6]; exact he
  · rw [if_neg d4]; exact he

/-- One cell-loop iteration preserves existing email entries and adds every
email-regex match found in the stripped cell (the pre-extension at source
line 156 runs before the mapping chain). -/

theorem pc_email_mem (rowLen : Nat) (hdr : String) (i : Nat) (cell : String) (c : Contact)
    (e : String) (he : e ∈ c.email ∨ e ∈ findEmails (pyStrip cell)) :
    e ∈ (processCell rowLen hdr i cell c).email := by
  by_cases hemp : (pyStrip cell).data.isEmpty = true
  · have hdata : (pyStrip cell).data = [] := by simpa [List.isEmpty_iff] using hemp
    have hfe : findEmails (pyStrip cell) = [] := by
      unfold findEmails reFindAll
      rw [hdata]
      rfl
    rcases he with he | he
    · unfold processCell
      rw [if_pos hemp]
      exact he
    · rw [hfe] at he
      simp at he
  · unfold processCell
    rw [if_neg hemp]
    apply mapCell_email_mem
    rcases he with he | he
    · exact List.mem_append_left _ he
    · exact List.mem_append_right _ he

theorem foldCells_email_mem (rowLen : Nat) (hs : List String) :
    ∀ (cells : List String) (i : Nat) (c : Contact) (e : String), e ∈ c.email →
      e ∈ (foldCells rowLen hs i cells c).email := by
  intro cells
  induction cells with
  | nil => intro i c e he; exact he
  | cons cell rest ih =>
    intro i c e he
    unfold foldCells
    by_cases hlt : i < hs.length
    · rw [if_pos hlt]
      exact ih (i + 1) _ e (pc_email_mem _ _ _ _ _ _ (Or.inl he))
    · rw [if_neg hlt]
      exact he

theorem foldCells_collect (rowLen : Nat) (hs : List String) :
    ∀ (cells : List String) (i : Nat) (c : Contact) (j : Nat),
      j < cells.length → i + j < hs.length →
      ∀ e ∈ findEmails (pyStrip (cells.getD j "")),
        e ∈ (foldCells rowLen hs i cells c).email := by
  intro cells
  induction cells with
  | nil =>
    intro i c j hj _ e he
    simp at hj
  | cons cell rest ih =>
    intro i c j hj hij e he
    have hlt : i < hs.length := by omega
    unfold foldCells
    rw [if_pos hlt]
    cases j with
    | zero =>
      simp only [List.getD_cons_zero] at he
      exact foldCells_email_mem rowLen hs rest (i + 1) _ e
        (pc_email_mem _ _ _ _ _ _ (Or.inr he))
    | succ j' =>
      simp only [List.getD_cons_succ] at he
      exact ih (i + 1) _ j' (by simpa using hj) (by omega) e he

/-- C10 amended: for every data row that `processRow` turns into a record,
every match of the email regex in every non-empty cell AT AN INDEX BELOW
THE NUMBER OF HEADERS ends up in the record's email list, regardless of
that cell's column header (cells at indices >= len(headers) are cut off by
the loop's break and are not scanned). -/
theorem c10_amended (hs row : List String) (c : Contact)
    (h : processRow hs row = some c) (j : Nat)
    (hj1 : j < row.length) (hj2 : j < hs.length) :
    ∀ e ∈ findEmails (pyStrip (row.getD j "")), e ∈ c.email := by
  unfold processRow at h
  split at h
  · exact absurd h (by simp)
  · split at h
    · exact absurd h (by simp)
    · split at h
      · exact absurd h (by simp)
      · simp only [ne_eq] at h
        split at h
        · cases h
          intro e he
          exact foldCells_collect _ hs _ 0 _ j hj1 (by omega) e he
        · exact absurd h (by simp)

/-- C10 counterexample: in the accepted table
`[["Name","Email"],["Jane Smith","a@b.com","c@d.com"],["Bob Jones","x@y.com"]]`
Jane Smith's row becomes a record, its third cell `"c@d.com"` is non-empty
and matches the email regex, yet the record's email list is only
`["a@b.com"]`: the loop breaks at `i >= len(headers)` (2 headers), so
cells beyond the header count are never scanned, contrary to the claim's
"every non-empty cell of that row". -/

theorem c10_counterexample :
    (extract_contact_table
      [["Name", "Email"], ["Jane Smith", "a@b.com", "c@d.com"], ["Bob Jones", "x@y.com"]]).map
        (fun r => r.email) = [["a@b.com"], ["x@y.com"]] ∧
    findEmails (pyStrip "c@d.com") = ["c@d.com"] ∧
    (pyStrip "c@d.com").data.isEmpty = false := by
  decide

/-- Witness for C10 amended: the email in Jane Smith's second cell (mapped
to `title` by position) still appears in the record's email list. -/
theorem c10_witness :
    ("a@b.com" : String) ∈
      ({ name := "Jane Smith", title := "a@b.com", phone := [], mobile := [],
         email := ["a@b.com"], location := "", description := "",
         raw := ["Jane Smith", "a@b.com", "c@d.com"] } : Contact).email := by
  have h := c10_amended ["name", "email"] ["Jane Smith", "a@b.com", "c@d.com"]
    { name := "Jane Smith", title := "a@b.com", phone := [], mobile := [],
      email := ["a@b.com"], location := "", description := "",
      raw := ["Jane Smith", "a@b.com", "c@d.com"] }
    (by decide) 1 (by decide) (by decide)
  exact h "a@b.com" (by decide)
